import Mathlib

/-!
Verification of the GeoSpeak corpus manager (`corpus_manager.py`).

The `CorpusManager` class is modelled as a pure state-passing program:
* Python dicts become association lists (`dictGet`/`dictSet`/`dictHas`
  reproduce `d[k]`, `d[k] = v` and `k in d`, including insertion order).
* The sentence-transformer embedding model composed with faiss L2
  normalisation is a black-box parameter `embed : String → List Rat`.
* The faiss index is modelled by its construction dimensionality and the
  list of added vectors; its `search` method is a black-box parameter
  `faiss_search` returning (score, position) pairs, where positions are
  integers because faiss pads with -1 when an index holds fewer than `k`
  vectors.
* Files under `corpus_dir` become three stores in the `State` structure;
  the in-memory registries `self.indexes` / `self.metadata` are two more.
-/

/-- One parallel-text entry: a mapping from language code to phrase text,
modelling a Python dict with insertion order and unique keys. -/
abbrev Entry := List (String × String)

/-- Python dict read `d.get(k)` / guarded `d[k]` on a string-keyed dict. -/
def dictGet {α : Type} : List (String × α) → String → Option α
  | [], _ => none
  | (k', v) :: rest, k => if k' = k then some v else dictGet rest k

/-- Python membership test `k in d`. -/
def dictHas {α : Type} (m : List (String × α)) (k : String) : Bool :=
  (dictGet m k).isSome

/-- Python dict write `d[k] = v`: replaces the value in place when the key
exists, otherwise appends the new binding (insertion order). -/
def dictSet {α : Type} : List (String × α) → String → α → List (String × α)
  | [], k, v => [(k, v)]
  | (k', v') :: rest, k, v =>
      if k' = k then (k, v) :: rest else (k', v') :: dictSet rest k v

/-- Metadata record built by `build_vector_index` (corpus_manager.py lines
561-565): owning corpus name, positional index of the entry in its corpus,
and the full translation mapping. -/
structure MetaRec where
  corpus : String
  index : Nat
  translations : Entry
deriving DecidableEq, Repr

/-- Shallow model of a faiss `IndexFlatIP`: the dimensionality passed to the
constructor and the sequence of vectors added, with rationals standing in for
the floating-point components. -/
structure FaissIndex where
  dim : Nat
  vectors : List (List Rat)
deriving DecidableEq, Repr

/-- Persisted corpus file written by `save_corpus` (lines 524-533): name,
entry data and count. The creation timestamp plays no role in any claim and
is omitted. -/
structure CorpusFile where
  name : String
  data : List Entry
  count : Nat
deriving DecidableEq, Repr

/-- One search result dict as assembled in `search_similar_texts` (lines
631-636): the fields of the copied metadata record plus the added
`similarity_score` and `corpus_name` keys. -/
structure SearchResult where
  corpus : String
  index : Nat
  translations : Entry
  similarity_score : Rat
  corpus_name : String
deriving DecidableEq, Repr

/-- The `CorpusManager` state: the corpus files and the persisted
index/metadata artifacts under `corpus_dir`, plus the in-memory registries
`self.indexes` and `self.metadata`. -/
structure State where
  store : List (String × CorpusFile)
  diskIndexes : List (String × FaissIndex)
  diskMetadata : List (String × List MetaRec)
  indexes : List (String × FaissIndex)
  metadata : List (String × List MetaRec)
deriving DecidableEq, Repr

/-- `self.vector_dim` default from `CorpusManager.__init__`. -/
def vector_dim : Nat := 384

/-- `save_corpus` (lines 524-533): writes name, data and count into the
corpus file, overwriting any prior version. -/
def save_corpus (s : State) (corpus_name : String) (data : List Entry) : State :=
  { s with store := dictSet s.store corpus_name ⟨corpus_name, data, data.length⟩ }

/-- `load_corpus` (lines 535-543): returns the `data` field of the corpus
file, or the empty sequence when the file does not exist. -/
def load_corpus (s : State) (corpus_name : String) : List Entry :=
  match dictGet s.store corpus_name with
  | none => []
  | some file => file.data

/-- The extraction loop of `build_vector_index` (lines 558-565): enumerate
the corpus entries, keep those containing the source language, and pair
each kept entry's source-language text with its metadata record. -/
def buildRows (corpus_name source_lang : String) : Nat → List Entry → List (String × MetaRec)
  | _, [] => []
  | idx, entry :: rest =>
    match dictGet entry source_lang with
    | some text =>
        (text, ⟨corpus_name, idx, entry⟩) :: buildRows corpus_name source_lang (idx + 1) rest
    | none => buildRows corpus_name source_lang (idx + 1) rest

/-- `build_vector_index` (lines 545-594). `embed` is the black-box pipeline
`SentenceTransformer.encode` followed by `faiss.normalize_L2`, applied to one
text. The early returns on an empty corpus and on an empty filtered text list
leave the state untouched; otherwise the fresh index (one added vector per
text, in order) and the metadata list are registered in memory and persisted
to disk. -/
def build_vector_index (embed : String → List Rat) (s : State)
    (corpus_name : String) (source_lang : String := "en") : State :=
  let data := load_corpus s corpus_name
  if data = [] then s
  else
    let rows := buildRows corpus_name source_lang 0 data
    let texts := rows.map Prod.fst
    let metadata := rows.map Prod.snd
    if texts = [] then s
    else
      let embeddings := texts.map embed
      let ix : FaissIndex := ⟨vector_dim, embeddings⟩
      { s with
        indexes := dictSet s.indexes corpus_name ix,
        metadata := dictSet s.metadata corpus_name metadata,
        diskIndexes := dictSet s.diskIndexes corpus_name ix,
        diskMetadata := dictSet s.diskMetadata corpus_name metadata }

/-- `load_vector_index` (lines 596-606): when both persisted artifacts exist
they are loaded into the registries as a pair and `True` is returned;
otherwise the state is unchanged and `False` is returned. -/
def load_vector_index (s : State) (corpus_name : String) : Bool × State :=
  match dictGet s.diskIndexes corpus_name, dictGet s.diskMetadata corpus_name with
  | some ix, some md =>
      (true, { s with indexes := dictSet s.indexes corpus_name ix,
                      metadata := dictSet s.metadata corpus_name md })
  | _, _ => (false, s)

/-- Python list indexing `l[i]` with an integer index: a non-negative index
counts from the front, a negative index counts from the back, and `none`
models the raised IndexError for an index out of range in both directions. -/
def pyGet {α : Type} (l : List α) (i : Int) : Option α :=
  if 0 ≤ i then l[i.toNat]?
  else if (-i).toNat ≤ l.length then l[l.length - (-i).toNat]?
  else none

/-- The per-corpus result-collection loop of `search_similar_texts` (lines
631-636): every (score, position) pair whose position passes the
`idx < len(self.metadata[corpus])` guard is joined to the metadata record
selected by Python list indexing at that position; the record dict is copied
and annotated with `similarity_score` and `corpus_name`. A `pyGet` miss
(IndexError) is only possible when the metadata list is empty, which cannot
happen for a built index. -/
def collectResults (md : List MetaRec) (corpus : String)
    (pairs : List (Rat × Int)) : List SearchResult :=
  pairs.filterMap fun p =>
    if p.2 < (md.length : Int) then
      (pyGet md p.2).map fun r =>
        { corpus := r.corpus, index := r.index, translations := r.translations,
          similarity_score := p.1, corpus_name := corpus }
    else none

/-- The corpus loop of `search_similar_texts` (lines 623-636): corpora
without a loaded in-memory index are skipped with `continue`; for the rest
the faiss index is searched and the results collected. `self.metadata[corpus]`
is always populated whenever `self.indexes[corpus]` is (both registries are
written together), so the `getD []` default is never taken on those states. -/
def searchCorpora (faiss_search : FaissIndex → List Rat → Nat → List (Rat × Int))
    (s : State) (qvec : List Rat) (k : Nat) : List String → List SearchResult
  | [] => []
  | corpus :: rest =>
    (match dictGet s.indexes corpus with
     | none => []
     | some ix =>
         collectResults ((dictGet s.metadata corpus).getD []) corpus (faiss_search ix qvec k))
      ++ searchCorpora faiss_search s qvec k rest

/-- The comparison realising `results.sort(key=lambda x: x['similarity_score'],
reverse=True)`: a stable sort placing higher similarity scores first. -/
def scoreDesc (a b : SearchResult) : Bool :=
  decide (b.similarity_score ≤ a.similarity_score)

/-- Lines 614-640 of `search_similar_texts`, after corpus-name resolution:
embed the query once, determine the corpora to search (the single name, or
the keys of the loaded-index registry in insertion order), collect all
candidates, sort by score descending with Python's stable sort, and return
the first `k`. -/
def searchResolved (embed : String → List Rat)
    (faiss_search : FaissIndex → List Rat → Nat → List (Rat × Int))
    (s : State) (query : String) (corpus_name : Option String) (k : Nat) :
    List SearchResult × State :=
  let qvec := embed query
  let corpora_to_search := match corpus_name with
    | some name => [name]
    | none => s.indexes.map Prod.fst
  let results := searchCorpora faiss_search s qvec k corpora_to_search
  ((results.mergeSort scoreDesc).take k, s)

/-- `search_similar_texts` (lines 608-640). When a corpus name is given and
not yet loaded, `load_vector_index` is attempted first and a failed load
returns the empty result list immediately. -/
def search_similar_texts (embed : String → List Rat)
    (faiss_search : FaissIndex → List Rat → Nat → List (Rat × Int))
    (s : State) (query : String) (corpus_name : Option String) (k : Nat := 5) :
    List SearchResult × State :=
  match corpus_name with
  | some name =>
      if dictHas s.indexes name then
        searchResolved embed faiss_search s query (some name) k
      else
        match load_vector_index s name with
        | (true, s') => searchResolved embed faiss_search s' query (some name) k
        | (false, s') => ([], s')
  | none => searchResolved embed faiss_search s query none k

/-- The static language-name table of `get_language_name` (lines 660-685). -/
def language_names : List (String × String) :=
  [("es", "Spanish"), ("fr", "French"), ("de", "German"), ("it", "Italian"),
   ("pt", "Portuguese"), ("ja", "Japanese"), ("ko", "Korean"), ("zh", "Chinese"),
   ("ar", "Arabic"), ("hi", "Hindi"), ("ur", "Urdu"), ("ru", "Russian"),
   ("nl", "Dutch"), ("sv", "Swedish"), ("no", "Norwegian"), ("da", "Danish"),
   ("pl", "Polish"), ("tr", "Turkish"), ("he", "Hebrew"), ("th", "Thai"),
   ("vi", "Vietnamese")]

/-- `get_language_name` (lines 660-685): table lookup with the raw code as
fallback for unknown codes. -/
def get_language_name (code : String) : String :=
  (dictGet language_names code).getD code

/-- The example-collection loop of `get_context_examples` (lines 646-654):
a result is kept only when its translations contain both the literal key
"en" and the target language; the formatted bilingual example is appended
and the loop breaks once the number collected reaches `max_examples`
(Python checks the bound after appending, hence the `max_ex ≤ 1` break
condition on the remaining budget). -/
def collectExamples (target_language : String) : List SearchResult → Nat → List String
  | [], _ => []
  | r :: rest, max_ex =>
    match dictGet r.translations "en", dictGet r.translations target_language with
    | some en, some tx =>
        let ex := "English: \"" ++ en ++ "\"\n" ++
          get_language_name target_language ++ ": \"" ++ tx ++ "\""
        if max_ex ≤ 1 then [ex] else ex :: collectExamples target_language rest (max_ex - 1)
    | _, _ => collectExamples target_language rest max_ex

/-- `get_context_examples` (lines 642-658): searches all loaded corpora for
`2 × max_examples` results, collects at most `max_examples` bilingual
examples, and renders them under a header, or returns the empty string. -/
def get_context_examples (embed : String → List Rat)
    (faiss_search : FaissIndex → List Rat → Nat → List (Rat × Int))
    (s : State) (query target_language : String) (max_examples : Nat := 3) : String :=
  let similar := (search_similar_texts embed faiss_search s query none (max_examples * 2)).1
  let ctx := collectExamples target_language similar max_examples
  if ctx.isEmpty then ""
  else "Translation examples:\n" ++ String.intercalate "\n\n" ctx ++ "\n\n"

/-- Specification-side description of the merged candidate sequence a search
draws from: for each resolution branch of `search_similar_texts`, the
concatenation in first-seen corpus order of the per-corpus candidate lists
produced after the join step. Used to state the top-k/ordering claim. -/
def mergedCandidates (embed : String → List Rat)
    (faiss_search : FaissIndex → List Rat → Nat → List (Rat × Int))
    (s : State) (query : String) (corpus_name : Option String) (k : Nat) :
    List SearchResult :=
  match corpus_name with
  | some name =>
      if dictHas s.indexes name then
        searchCorpora faiss_search s (embed query) k [name]
      else
        match load_vector_index s name with
        | (true, s') => searchCorpora faiss_search s' (embed query) k [name]
        | (false, _) => []
  | none => searchCorpora faiss_search s (embed query) k (s.indexes.map Prod.fst)

/-! ### Association-list helper lemmas -/

theorem dictGet_dictSet_self {α : Type} (m : List (String × α)) (k : String) (v : α) :
    dictGet (dictSet m k v) k = some v := by
  induction m with
  | nil => simp [dictSet, dictGet]
  | cons p rest ih =>
    obtain ⟨k', v'⟩ := p
    by_cases h : k' = k
    · simp [dictSet, dictGet, h]
    · simp [dictSet, dictGet, h, ih]

theorem dictGet_dictSet_other {α : Type} (m : List (String × α)) (k c : String) (v : α)
    (h : c ≠ k) : dictGet (dictSet m k v) c = dictGet m c := by
  induction m with
  | nil => simp [dictSet, dictGet, Ne.symm h]
  | cons p rest ih =>
    obtain ⟨k', v'⟩ := p
    by_cases hk : k' = k
    · subst hk
      simp [dictSet, dictGet, Ne.symm h]
    · by_cases hc : k' = c <;> simp [dictSet, dictGet, hk, hc, h, ih]

/-! ### Lemmas about the index-build extraction loop -/

theorem buildRows_eq_nil {cn sl : String} : ∀ (n : Nat) (data : List Entry),
    (∀ e ∈ data, dictGet e sl = none) → buildRows cn sl n data = []
  | _, [], _ => rfl
  | n, entry :: rest, h => by
    have he := h entry (List.mem_cons_self _ _)
    simp only [buildRows, he]
    exact buildRows_eq_nil (n + 1) rest fun e hm => h e (List.mem_cons_of_mem _ hm)

theorem buildRows_mem {cn sl : String} :
    ∀ {n : Nat} {data : List Entry} {p : String × MetaRec},
    p ∈ buildRows cn sl n data →
    p.2.corpus = cn ∧ dictGet p.2.translations sl = some p.1 ∧ n ≤ p.2.index ∧
      data[p.2.index - n]? = some p.2.translations := by
  intro n data
  induction data generalizing n with
  | nil => intro p hp; simp [buildRows] at hp
  | cons entry rest ih =>
    intro p hp
    simp only [buildRows] at hp
    cases hlook : dictGet entry sl with
    | some text =>
      rw [hlook] at hp
      rcases List.mem_cons.mp hp with h | h
      · subst h
        refine ⟨rfl, hlook, Nat.le_refl _, ?_⟩
        simp
      · obtain ⟨h1, h2, h3, h4⟩ := ih h
        refine ⟨h1, h2, Nat.le_of_succ_le h3, ?_⟩
        have : p.2.index - n = (p.2.index - (n + 1)) + 1 := by omega
        rw [this, List.getElem?_cons_succ]
        exact h4
    | none =>
      rw [hlook] at hp
      obtain ⟨h1, h2, h3, h4⟩ := ih hp
      refine ⟨h1, h2, Nat.le_of_succ_le h3, ?_⟩
      have : p.2.index - n = (p.2.index - (n + 1)) + 1 := by omega
      rw [this, List.getElem?_cons_succ]
      exact h4

/-! ### Concrete instances used by counterexamples and witnesses -/

/-- A sample metadata record. -/
def recPad : MetaRec := ⟨"medical", 0, [("en", "Blood pressure"), ("es", "Presion arterial")]⟩

/-- Constant black-box embedding. -/
def embed0 : String → List Rat := fun _ => [1]

/-- Black-box index search returning a single perfect hit at position 0. -/
def fsearch0 : FaissIndex → List Rat → Nat → List (Rat × Int) := fun _ _ _ => [(1, 0)]

/-- A one-vector index. -/
def idxC : FaissIndex := ⟨1, [[1]]⟩

/-- Metadata for the one-vector index. -/
def recC : MetaRec := ⟨"c", 0, [("en", "hello"), ("es", "hola")]⟩

/-- A state where corpus `c` is persisted on disk but not loaded in memory. -/
def stateDiskOnly : State := ⟨[], [("c", idxC)], [("c", [recC])], [], []⟩

/-- C1 (code_bug evidence): a corpus whose index holds a single vector is
searched with `k = 2`, so the index pads its answer with the position `-1`
as faiss does. The guard `idx < len(self.metadata[corpus])` accepts `-1`,
and Python list indexing joins it to the **last** metadata record: the
padding pair produces a (duplicate) result instead of being dropped. -/
theorem collectResults_keeps_negative_padding :
    collectResults [recPad] "medical" [(1, 0), (0, -1)] =
      [{ corpus := "medical", index := 0,
         translations := [("en", "Blood pressure"), ("es", "Presion arterial")],
         similarity_score := 1, corpus_name := "medical" },
       { corpus := "medical", index := 0,
         translations := [("en", "Blood pressure"), ("es", "Presion arterial")],
         similarity_score := 0, corpus_name := "medical" }] := by
  decide

/-- C5: for every non-empty entry sequence, `save_corpus` followed by
`load_corpus` under the same name returns an entry sequence structurally
equal to the input. -/
theorem save_load_roundtrip (s : State) (name : String) (entries : List Entry)
    (h : entries ≠ []) :
    load_corpus (save_corpus s name entries) name = entries := by
  simp [load_corpus, save_corpus, dictGet_dictSet_self]

/-- Witness for C5 at a concrete state and entry list. -/
theorem save_load_roundtrip_witness :
    [[("en", "hi"), ("ur", "salaam")]] ≠ ([] : List Entry) ∧
      load_corpus (save_corpus ⟨[], [], [], [], []⟩ "greetings"
        [[("en", "hi"), ("ur", "salaam")]]) "greetings" =
        [[("en", "hi"), ("ur", "salaam")]] :=
  ⟨by decide, save_load_roundtrip ⟨[], [], [], [], []⟩ "greetings"
    [[("en", "hi"), ("ur", "salaam")]] (by decide)⟩

/-- C6: searching a corpus name that was never built — no in-memory index and
no persisted index artifact — returns the empty result list (the model is a
total function, so no exception is raised). -/
theorem search_never_built_empty (embed : String → List Rat)
    (faiss_search : FaissIndex → List Rat → Nat → List (Rat × Int))
    (s : State) (q name : String) (k : Nat)
    (h1 : dictGet s.indexes name = none) (h2 : dictGet s.diskIndexes name = none) :
    (search_similar_texts embed faiss_search s q (some name) k).1 = [] := by
  simp [search_similar_texts, dictHas, h1, load_vector_index, h2]

/-- Witness for C6: a state with nothing loaded and nothing persisted. -/
theorem search_never_built_empty_witness :
    dictGet (State.mk [] [] [] [] []).indexes "ghost" = none ∧
      dictGet (State.mk [] [] [] [] []).diskIndexes "ghost" = none ∧
      (search_similar_texts embed0 fsearch0 ⟨[], [], [], [], []⟩ "query" (some "ghost") 3).1 = [] :=
  ⟨by decide, by decide,
    search_never_built_empty embed0 fsearch0 ⟨[], [], [], [], []⟩ "query" "ghost" 3
      (by decide) (by decide)⟩

/-- C8: `build_vector_index` is non-fatal on missing data: when the corpus is
empty or absent, or when no entry contains the requested source language, the
returned state is exactly the input state — nothing embedded, nothing indexed,
nothing persisted, registry untouched. -/
theorem build_nonfatal (embed : String → List Rat) (s : State) (name lang : String)
    (h : load_corpus s name = [] ∨ ∀ e ∈ load_corpus s name, dictGet e lang = none) :
    build_vector_index embed s name lang = s := by
  rcases h with h | h
  · simp [build_vector_index, h]
  · by_cases hd : load_corpus s name = []
    · simp [build_vector_index, hd]
    · have hrows : buildRows name lang 0 (load_corpus s name) = [] := buildRows_eq_nil 0 _ h
      simp [build_vector_index, hd, hrows]

/-- Witness for C8: a corpus whose sole entry lacks the requested language. -/
theorem build_nonfatal_witness :
    (load_corpus (State.mk [("c", ⟨"c", [[("en", "hello")]], 1⟩)] [] [] [] []) "c" = [] ∨
      ∀ e ∈ load_corpus (State.mk [("c", ⟨"c", [[("en", "hello")]], 1⟩)] [] [] [] []) "c",
        dictGet e "fr" = none) ∧
    build_vector_index embed0 (State.mk [("c", ⟨"c", [[("en", "hello")]], 1⟩)] [] [] [] []) "c" "fr" =
      State.mk [("c", ⟨"c", [[("en", "hello")]], 1⟩)] [] [] [] [] :=
  ⟨Or.inr (by decide),
    build_nonfatal embed0 (State.mk [("c", ⟨"c", [[("en", "hello")]], 1⟩)] [] [] [] []) "c" "fr"
      (Or.inr (by decide))⟩

/-- Unfolding of `build_vector_index` on the successful path: both early
returns are not taken, and the fresh index/metadata pair is written to the
in-memory registries and to disk. -/
theorem build_vector_index_eq (embed : String → List Rat) (s : State) (name lang : String)
    (hd : load_corpus s name ≠ [])
    (hr : buildRows name lang 0 (load_corpus s name) ≠ []) :
    build_vector_index embed s name lang =
      { s with
        indexes := dictSet s.indexes name
          ⟨vector_dim, ((buildRows name lang 0 (load_corpus s name)).map Prod.fst).map embed⟩,
        metadata := dictSet s.metadata name
          ((buildRows name lang 0 (load_corpus s name)).map Prod.snd),
        diskIndexes := dictSet s.diskIndexes name
          ⟨vector_dim, ((buildRows name lang 0 (load_corpus s name)).map Prod.fst).map embed⟩,
        diskMetadata := dictSet s.diskMetadata name
          ((buildRows name lang 0 (load_corpus s name)).map Prod.snd) } := by
  have htexts : (buildRows name lang 0 (load_corpus s name)).map Prod.fst ≠ [] := by
    simpa using hr
  simp [build_vector_index, hd, htexts]

/-- C4: after `build_vector_index` completes an index build (equivalently, the
filtered extraction rows are non-empty), the registered metadata sequence for
the corpus has exactly one record per vector added to the index, in the same
order: record *i* carries the owning corpus name, a positional index that
resolves to its entry in the corpus data, and the full translation mapping of
the entry whose source-language text was embedded as vector *i*. -/
theorem build_index_metadata_aligned (embed : String → List Rat) (s : State)
    (name lang : String)
    (h : buildRows name lang 0 (load_corpus s name) ≠ []) :
    ∃ (ix : FaissIndex) (md : List MetaRec),
      dictGet (build_vector_index embed s name lang).indexes name = some ix ∧
      dictGet (build_vector_index embed s name lang).metadata name = some md ∧
      md.length = ix.vectors.length ∧
      ∀ (i : Nat) (r : MetaRec), md[i]? = some r →
        r.corpus = name ∧
        ∃ t, dictGet r.translations lang = some t ∧
          ix.vectors[i]? = some (embed t) ∧
          (load_corpus s name)[r.index]? = some r.translations := by
  have hdata : load_corpus s name ≠ [] := by
    intro hd
    apply h
    rw [hd]
    rfl
  rw [build_vector_index_eq embed s name lang hdata h]
  refine ⟨⟨vector_dim, ((buildRows name lang 0 (load_corpus s name)).map Prod.fst).map embed⟩,
    (buildRows name lang 0 (load_corpus s name)).map Prod.snd,
    dictGet_dictSet_self _ _ _, dictGet_dictSet_self _ _ _, by simp, ?_⟩
  intro i r hir
  rw [List.getElem?_map] at hir
  cases hrow : (buildRows name lang 0 (load_corpus s name))[i]? with
  | none => rw [hrow] at hir; simp at hir
  | some p =>
    rw [hrow] at hir
    simp only [Option.map_some'] at hir
    obtain rfl : p.2 = r := by injection hir
    have hmem : p ∈ buildRows name lang 0 (load_corpus s name) := List.getElem?_mem hrow
    obtain ⟨h1, h2, _, h4⟩ := buildRows_mem hmem
    refine ⟨h1, p.1, h2, ?_, by simpa using h4⟩
    rw [List.getElem?_map, List.getElem?_map, hrow]
    rfl

/-- Witness for C4: build a two-entry corpus where only the entries containing
the source language "en" are indexed. -/
theorem build_index_metadata_aligned_witness :
    buildRows "c" "en" 0 (load_corpus
      (State.mk [("c", ⟨"c", [[("en", "hi"), ("es", "hola")], [("fr", "salut")]], 2⟩)] [] [] [] [])
      "c") ≠ [] ∧
    (∃ (ix : FaissIndex) (md : List MetaRec),
      dictGet (build_vector_index embed0
        (State.mk [("c", ⟨"c", [[("en", "hi"), ("es", "hola")], [("fr", "salut")]], 2⟩)] [] [] [] [])
        "c" "en").indexes "c" = some ix ∧
      dictGet (build_vector_index embed0
        (State.mk [("c", ⟨"c", [[("en", "hi"), ("es", "hola")], [("fr", "salut")]], 2⟩)] [] [] [] [])
        "c" "en").metadata "c" = some md ∧
      md.length = ix.vectors.length ∧
      ∀ (i : Nat) (r : MetaRec), md[i]? = some r →
        r.corpus = "c" ∧
        ∃ t, dictGet r.translations "en" = some t ∧
          ix.vectors[i]? = some (embed0 t) ∧
          (load_corpus
            (State.mk [("c", ⟨"c", [[("en", "hi"), ("es", "hola")], [("fr", "salut")]], 2⟩)] [] [] [] [])
            "c")[r.index]? = some r.translations) :=
  ⟨by decide,
    build_index_metadata_aligned embed0
      (State.mk [("c", ⟨"c", [[("en", "hi"), ("es", "hola")], [("fr", "salut")]], 2⟩)] [] [] [] [])
      "c" "en" (by decide)⟩

/-! ### Lemmas about the example-collection loop -/

theorem collectExamples_length_le (t : String) :
    ∀ (l : List SearchResult) (m : Nat), (collectExamples t l m).length ≤ max m 1 := by
  intro l
  induction l with
  | nil => intro m; simp [collectExamples]
  | cons r rest ih =>
    intro m
    cases h1 : dictGet r.translations "en" with
    | none => simpa [collectExamples, h1] using ih m
    | some en =>
      cases h2 : dictGet r.translations t with
      | none => simpa [collectExamples, h1, h2] using ih m
      | some tx =>
        by_cases hm : m ≤ 1
        · simp [collectExamples, h1, h2, hm]
        · have := ih (m - 1)
          simp only [collectExamples, h1, h2, if_neg hm, List.length_cons]
          omega

theorem collectExamples_of_absent (t : String) :
    ∀ (l : List SearchResult), (∀ r ∈ l, dictGet r.translations t = none) →
      ∀ m, collectExamples t l m = [] := by
  intro l
  induction l with
  | nil => intro _ m; rfl
  | cons r rest ih =>
    intro h m
    have hr := h r (List.mem_cons_self _ _)
    cases h1 : dictGet r.translations "en" with
    | none => simpa [collectExamples, h1, hr] using ih (fun x hx => h x (List.mem_cons_of_mem _ hx)) m
    | some en => simpa [collectExamples, h1, hr] using ih (fun x hx => h x (List.mem_cons_of_mem _ hx)) m

/-- C7: `get_context_examples` requests `2 × max_examples` results from the
retrieval engine; the number of formatted examples collected never exceeds
`max_examples` (the loop breaks once that many are collected or the results
run out), and when no retrieved record contains the target language the
returned context string is empty. -/
theorem context_examples_bounded (embed : String → List Rat)
    (faiss_search : FaissIndex → List Rat → Nat → List (Rat × Int))
    (s : State) (q target : String) (N : Nat) :
    (collectExamples target
        (search_similar_texts embed faiss_search s q none (N * 2)).1 N).length ≤ N ∧
    ((∀ r ∈ (search_similar_texts embed faiss_search s q none (N * 2)).1,
        dictGet r.translations target = none) →
      get_context_examples embed faiss_search s q target N = "") := by
  constructor
  · by_cases hN : N = 0
    · subst hN
      have hempty : (search_similar_texts embed faiss_search s q none 0).1 = [] := by
        simp [search_similar_texts, searchResolved]
      rw [Nat.zero_mul, hempty]
      simp [collectExamples]
    · have := collectExamples_length_le target
        ((search_similar_texts embed faiss_search s q none (N * 2)).1) N
      omega
  · intro hall
    have hnil := collectExamples_of_absent target _ hall N
    simp [get_context_examples, hnil]

/-- Witness for C7: one loaded corpus, target language absent from its record. -/
theorem context_examples_bounded_witness :
    (collectExamples "ur"
        (search_similar_texts embed0 fsearch0
          (State.mk [] [] [] [("c", idxC)] [("c", [recC])]) "hi" none (2 * 2)).1 2).length ≤ 2 ∧
    ((∀ r ∈ (search_similar_texts embed0 fsearch0
          (State.mk [] [] [] [("c", idxC)] [("c", [recC])]) "hi" none (2 * 2)).1,
        dictGet r.translations "ur" = none) →
      get_context_examples embed0 fsearch0
        (State.mk [] [] [] [("c", idxC)] [("c", [recC])]) "hi" "ur" 2 = "") :=
  context_examples_bounded embed0 fsearch0
    (State.mk [] [] [] [("c", idxC)] [("c", [recC])]) "hi" "ur" 2

/-- The language-name table has no row for "en", so the raw code falls out. -/
theorem get_language_name_en : get_language_name "en" = "en" := by decide

/-- C10: an example is produced from a retrieved record only when its
translation mapping contains the literal key "en" in addition to the target
language (otherwise the record is skipped), the "en" text is always the
source side of the formatted example, and with target language "en" the
record's English text is paired with itself under the fallback label "en". -/
theorem context_example_selection (r : SearchResult) (rest : List SearchResult)
    (target en tx : String) (m : Nat) :
    ((dictGet r.translations "en" = none ∨ dictGet r.translations target = none) →
        collectExamples target (r :: rest) m = collectExamples target rest m) ∧
    (dictGet r.translations "en" = some en → dictGet r.translations target = some tx →
      ∃ tl, collectExamples target (r :: rest) m =
        ("English: \"" ++ en ++ "\"\n" ++ get_language_name target ++ ": \"" ++ tx ++ "\"") :: tl) ∧
    (dictGet r.translations "en" = some en →
      ∃ tl, collectExamples "en" (r :: rest) m =
        ("English: \"" ++ en ++ "\"\n" ++ "en" ++ ": \"" ++ en ++ "\"") :: tl) := by
  refine ⟨?_, ?_, ?_⟩
  · intro h
    rcases h with h | h
    · simp [collectExamples, h]
    · cases h1 : dictGet r.translations "en" <;> simp [collectExamples, h1, h]
  · intro h1 h2
    by_cases hm : m ≤ 1
    · exact ⟨[], by simp [collectExamples, h1, h2, hm]⟩
    · exact ⟨collectExamples target rest (m - 1), by simp [collectExamples, h1, h2, hm]⟩
  · intro h1
    by_cases hm : m ≤ 1
    · exact ⟨[], by simp [collectExamples, h1, hm, get_language_name_en]⟩
    · exact ⟨collectExamples "en" rest (m - 1),
        by simp [collectExamples, h1, hm, get_language_name_en]⟩

/-- A concrete eligible search result. -/
def rW : SearchResult := ⟨"c", 0, [("en", "hello"), ("es", "hola")], 1, "c"⟩

/-- Witness for C10 at a concrete record, target "es" and target "en". -/
theorem context_example_selection_witness :
    dictGet rW.translations "en" = some "hello" ∧
    dictGet rW.translations "es" = some "hola" ∧
    (∃ tl, collectExamples "es" [rW] 1 =
      ("English: \"" ++ "hello" ++ "\"\n" ++ get_language_name "es" ++ ": \"" ++ "hola" ++ "\"") :: tl) ∧
    (∃ tl, collectExamples "en" [rW] 1 =
      ("English: \"" ++ "hello" ++ "\"\n" ++ "en" ++ ": \"" ++ "hello" ++ "\"") :: tl) :=
  ⟨by decide, by decide,
    (context_example_selection rW [] "es" "hello" "hola" 1).2.1 (by decide) (by decide),
    (context_example_selection rW [] "es" "hello" "hola" 1).2.2 (by decide)⟩

/-! ### Provenance of search results -/

theorem collectResults_corpus_name {md : List MetaRec} {c : String}
    {ps : List (Rat × Int)} {r : SearchResult}
    (h : r ∈ collectResults md c ps) : r.corpus_name = c := by
  simp only [collectResults, List.mem_filterMap] at h
  obtain ⟨p, _, hp⟩ := h
  by_cases hc : p.2 < (md.length : Int)
  · rw [if_pos hc] at hp
    cases hg : pyGet md p.2 with
    | none => rw [hg] at hp; simp at hp
    | some r0 =>
      rw [hg] at hp
      simp only [Option.map_some', Option.some.injEq] at hp
      rw [← hp]
  · rw [if_neg hc] at hp
    simp at hp

theorem searchCorpora_corpus_loaded
    (faiss_search : FaissIndex → List Rat → Nat → List (Rat × Int))
    (s : State) (qvec : List Rat) (k : Nat) :
    ∀ (cs : List String) (r : SearchResult), r ∈ searchCorpora faiss_search s qvec k cs →
      dictHas s.indexes r.corpus_name = true := by
  intro cs
  induction cs with
  | nil => intro r h; simp [searchCorpora] at h
  | cons c rest ih =>
    intro r h
    simp only [searchCorpora] at h
    rcases List.mem_append.mp h with h | h
    · cases hx : dictGet s.indexes c with
      | none => rw [hx] at h; simp at h
      | some ix =>
        rw [hx] at h
        rw [collectResults_corpus_name h, dictHas, hx]
        rfl
    · exact ih r h

/-- C3 counterexample: corpus `c` has a persisted index and metadata on disk
but is not loaded in memory. A search with no corpus name skips it entirely —
nothing is lazily loaded (the state, including the empty registry, is
unchanged) and no result is returned — even though the persisted index is
perfectly usable: the same search naming `c` lazily loads it and returns its
candidate. -/
theorem search_none_skips_persisted :
    (search_similar_texts embed0 fsearch0 stateDiskOnly "hello" none 5).1 = [] ∧
    (search_similar_texts embed0 fsearch0 stateDiskOnly "hello" none 5).2 = stateDiskOnly ∧
    stateDiskOnly.indexes = [] ∧
    dictGet stateDiskOnly.diskIndexes "c" = some idxC ∧
    (search_similar_texts embed0 fsearch0 stateDiskOnly "hello" (some "c") 5).1 ≠ [] := by
  refine ⟨?_, by decide, by decide, by decide, ?_⟩
  · simp [search_similar_texts, searchResolved, searchCorpora, stateDiskOnly]
  · have hc : (search_similar_texts embed0 fsearch0 stateDiskOnly "hello" (some "c") 5).1 = [rW] := by
      simp [search_similar_texts, searchResolved, searchCorpora, collectResults,
        load_vector_index, pyGet, stateDiskOnly, idxC, recC, embed0, fsearch0,
        dictHas, dictGet, dictSet, rW, scoreDesc]
    rw [hc]
    simp

/-- C3 amended: with no corpus name, the search consults exactly the corpora
whose index is currently loaded in memory — the state is returned unchanged
(no lazy loading happens in this branch; that occurs only when a single
corpus name is given) and every returned result originates from a corpus with
a loaded index; corpora without one are silently skipped. -/
theorem search_none_only_loaded (embed : String → List Rat)
    (faiss_search : FaissIndex → List Rat → Nat → List (Rat × Int))
    (s : State) (q : String) (k : Nat) :
    (search_similar_texts embed faiss_search s q none k).2 = s ∧
    ∀ r ∈ (search_similar_texts embed faiss_search s q none k).1,
      dictHas s.indexes r.corpus_name = true := by
  constructor
  · rfl
  · intro r hr
    simp only [search_similar_texts, searchResolved] at hr
    have h1 : r ∈ (searchCorpora faiss_search s (embed q) k
        (s.indexes.map Prod.fst)).mergeSort scoreDesc :=
      List.take_subset k _ hr
    exact searchCorpora_corpus_loaded faiss_search s (embed q) k _ r
      (List.mem_mergeSort.mp h1)

/-- A state where corpus `c` is loaded in memory. -/
def stateLoaded : State := ⟨[], [], [], [("c", idxC)], [("c", [recC])]⟩

/-- Witness for the amended C3: one loaded corpus, which contributes the sole
result of a no-name search, with the state unchanged. -/
theorem search_none_only_loaded_witness :
    (search_similar_texts embed0 fsearch0 stateLoaded "hi" none 5).2 = stateLoaded ∧
    dictHas stateLoaded.indexes rW.corpus_name = true :=
  ⟨(search_none_only_loaded embed0 fsearch0 stateLoaded "hi" 5).1,
   (search_none_only_loaded embed0 fsearch0 stateLoaded "hi" 5).2 rW (by
      have hc : (search_similar_texts embed0 fsearch0 stateLoaded "hi" none 5).1 = [rW] := by
        simp [search_similar_texts, searchResolved, searchCorpora, collectResults,
          pyGet, stateLoaded, idxC, recC, embed0, fsearch0, dictHas, dictGet, rW, scoreDesc]
      rw [hc]
      simp)⟩

/-- C9 counterexample: searching a named corpus that is persisted but not yet
loaded mutates the registry — the lazily loaded index and metadata are added —
so the state after the search differs from the state before it. -/
theorem search_lazy_load_mutates_registry :
    (search_similar_texts embed0 fsearch0 stateDiskOnly "hi" (some "c") 5).2 ≠ stateDiskOnly := by
  decide

/-- C9 amended: a search never modifies existing registry entries: every
corpus whose index was loaded before the search keeps exactly its index
handle and its metadata record sequence afterwards (each result is built from
a copy of the stored record before the `similarity_score` and `corpus_name`
annotations are added); the only possible registry change is the addition of
new entries for a lazily loaded named corpus. -/
theorem search_preserves_loaded_entries (embed : String → List Rat)
    (faiss_search : FaissIndex → List Rat → Nat → List (Rat × Int))
    (s : State) (q : String) (cn : Option String) (k : Nat) (c : String)
    (ixv : FaissIndex) (h : dictGet s.indexes c = some ixv) :
    dictGet (search_similar_texts embed faiss_search s q cn k).2.indexes c = some ixv ∧
    dictGet (search_similar_texts embed faiss_search s q cn k).2.metadata c =
      dictGet s.metadata c := by
  cases cn with
  | none => exact ⟨h, rfl⟩
  | some name =>
    by_cases hl : dictHas s.indexes name
    · refine ⟨?_, ?_⟩ <;> simp [search_similar_texts, hl, searchResolved, h]
    · have hub : dictGet s.indexes name = none := by
        cases hq : dictGet s.indexes name with
        | none => rfl
        | some v => rw [dictHas, hq] at hl; simp at hl
      have hcne : c ≠ name := by
        intro e
        rw [e, hub] at h
        exact Option.noConfusion h
      cases hdi : dictGet s.diskIndexes name with
      | none =>
        refine ⟨?_, ?_⟩ <;> simp [search_similar_texts, hl, load_vector_index, hdi, h]
      | some dix =>
        cases hdm : dictGet s.diskMetadata name with
        | none =>
          refine ⟨?_, ?_⟩ <;> simp [search_similar_texts, hl, load_vector_index, hdi, hdm, h]
        | some dmd =>
          refine ⟨?_, ?_⟩ <;>
            simp [search_similar_texts, hl, load_vector_index, hdi, hdm, searchResolved,
              dictGet_dictSet_other _ _ _ _ hcne, h]

/-- A second loaded index used by the C9 witness. -/
def idxA : FaissIndex := ⟨1, [[1], [0]]⟩

/-- A state where corpus `a` is loaded and corpus `c` is only persisted. -/
def stateMixed : State := ⟨[], [("c", idxC)], [("c", [recC])], [("a", idxA)], [("a", [recC])]⟩

/-- Witness for the amended C9: searching the persisted corpus `c` lazily
loads it while the pre-existing entry for `a` is preserved unchanged. -/
theorem search_preserves_loaded_entries_witness :
    dictGet stateMixed.indexes "a" = some idxA ∧
    dictGet (search_similar_texts embed0 fsearch0 stateMixed "hi" (some "c") 5).2.indexes "a" =
      some idxA ∧
    dictGet (search_similar_texts embed0 fsearch0 stateMixed "hi" (some "c") 5).2.metadata "a" =
      dictGet stateMixed.metadata "a" :=
  ⟨by decide,
   (search_preserves_loaded_entries embed0 fsearch0 stateMixed "hi" (some "c") 5 "a" idxA
      (by decide)).1,
   (search_preserves_loaded_entries embed0 fsearch0 stateMixed "hi" (some "c") 5 "a" idxA
      (by decide)).2⟩

/-! ### The cross-corpus merge: top-k, ordering, stability -/

theorem scoreDesc_trans : ∀ a b c : SearchResult,
    scoreDesc a b → scoreDesc b c → scoreDesc a c := by
  intro a b c hab hbc
  simp only [scoreDesc, decide_eq_true_eq] at *
  exact le_trans hbc hab

theorem scoreDesc_total : ∀ a b : SearchResult, scoreDesc a b || scoreDesc b a := by
  intro a b
  simp only [scoreDesc]
  rcases le_total a.similarity_score b.similarity_score with h | h <;> simp [h]

/-- Every branch of `search_similar_texts` returns the stable descending sort
of its merged candidate sequence, truncated to the first `k`. -/
theorem search_similar_texts_fst_eq (embed : String → List Rat)
    (faiss_search : FaissIndex → List Rat → Nat → List (Rat × Int))
    (s : State) (q : String) (cn : Option String) (k : Nat) :
    (search_similar_texts embed faiss_search s q cn k).1 =
      ((mergedCandidates embed faiss_search s q cn k).mergeSort scoreDesc).take k := by
  cases cn with
  | none => rfl
  | some name =>
    by_cases hl : dictHas s.indexes name
    · simp [search_similar_texts, mergedCandidates, hl, searchResolved]
    · cases hload : load_vector_index s name with
    | mk ok s' =>
      cases ok with
      | true => simp [search_similar_texts, mergedCandidates, hl, hload, searchResolved]
      | false => simp [search_similar_texts, mergedCandidates, hl, hload]

/-- C2: for every query and every `k`, the search returns exactly
`min k (number of candidates produced across all searched corpora)` results;
they are the first `k` of the stable descending sort of the merged candidate
sequence, sorted by similarity score descending; candidates with equal scores
keep their order from the merged sequence (first-seen corpus order, then the
order the corpus's index returned them, which for a flat index is original
position order); and when `k` exceeds the number of available candidates all
of them are returned with no padding. -/
theorem search_topk_sorted_stable (embed : String → List Rat)
    (faiss_search : FaissIndex → List Rat → Nat → List (Rat × Int))
    (s : State) (q : String) (cn : Option String) (k : Nat) :
    (search_similar_texts embed faiss_search s q cn k).1 =
      ((mergedCandidates embed faiss_search s q cn k).mergeSort scoreDesc).take k ∧
    (search_similar_texts embed faiss_search s q cn k).1.length =
      min k (mergedCandidates embed faiss_search s q cn k).length ∧
    (search_similar_texts embed faiss_search s q cn k).1.Pairwise
      (fun a b => b.similarity_score ≤ a.similarity_score) ∧
    (∀ a b : SearchResult, a.similarity_score = b.similarity_score →
      List.Sublist [a, b] (mergedCandidates embed faiss_search s q cn k) →
      List.Sublist [a, b] ((mergedCandidates embed faiss_search s q cn k).mergeSort scoreDesc)) ∧
    ((mergedCandidates embed faiss_search s q cn k).length ≤ k →
      (search_similar_texts embed faiss_search s q cn k).1 =
        (mergedCandidates embed faiss_search s q cn k).mergeSort scoreDesc) := by
  have h0 := search_similar_texts_fst_eq embed faiss_search s q cn k
  refine ⟨h0, ?_, ?_, ?_, ?_⟩
  · rw [h0, List.length_take, List.length_mergeSort]
  · rw [h0]
    have hs := @List.sorted_mergeSort _ scoreDesc scoreDesc_trans scoreDesc_total
      (mergedCandidates embed faiss_search s q cn k)
    have hs' : ((mergedCandidates embed faiss_search s q cn k).mergeSort scoreDesc).Pairwise
        (fun a b => b.similarity_score ≤ a.similarity_score) := by
      refine hs.imp ?_
      intro a b hab
      simpa [scoreDesc] using hab
    exact hs'.sublist (List.take_sublist k _)
  · intro a b heq hsub
    refine List.pair_sublist_mergeSort scoreDesc_trans scoreDesc_total ?_ hsub
    simp [scoreDesc, heq]
  · intro hle
    rw [h0, List.take_of_length_le (by rw [List.length_mergeSort]; exact hle)]

/-- Two-record corpus used by the C2 witness. -/
def recT0 : MetaRec := ⟨"c", 0, [("en", "alpha")]⟩

/-- Second record of the C2 witness corpus. -/
def recT1 : MetaRec := ⟨"c", 1, [("en", "beta")]⟩

/-- Black-box index search producing a tie between positions 0 and 1. -/
def fsearchTie : FaissIndex → List Rat → Nat → List (Rat × Int) := fun _ _ _ => [(1, 0), (1, 1)]

/-- State with the two-record corpus loaded. -/
def stateTie : State := ⟨[], [], [], [("c", ⟨1, [[1], [0]]⟩)], [("c", [recT0, recT1])]⟩

/-- First tied candidate. -/
def rT0 : SearchResult := ⟨"c", 0, [("en", "alpha")], 1, "c"⟩

/-- Second tied candidate. -/
def rT1 : SearchResult := ⟨"c", 1, [("en", "beta")], 1, "c"⟩

/-- Witness for C2: a tie between two candidates of one corpus is returned in
original order, and with `k` larger than the candidate count the whole sorted
sequence is returned. -/
theorem search_topk_sorted_stable_witness :
    rT0.similarity_score = rT1.similarity_score ∧
    List.Sublist [rT0, rT1] ((mergedCandidates embed0 fsearchTie stateTie "q" none 3).mergeSort scoreDesc) ∧
    (search_similar_texts embed0 fsearchTie stateTie "q" none 3).1 =
      (mergedCandidates embed0 fsearchTie stateTie "q" none 3).mergeSort scoreDesc := by
  have hm : mergedCandidates embed0 fsearchTie stateTie "q" none 3 = [rT0, rT1] := by
    simp [mergedCandidates, searchCorpora, collectResults, pyGet, stateTie,
      recT0, recT1, embed0, fsearchTie, dictGet, rT0, rT1]
  refine ⟨by decide, ?_, ?_⟩
  · exact (search_topk_sorted_stable embed0 fsearchTie stateTie "q" none 3).2.2.2.1 rT0 rT1
      (by decide) (by rw [hm])
  · exact (search_topk_sorted_stable embed0 fsearchTie stateTie "q" none 3).2.2.2.2
      (by rw [hm]; decide)
